import Mathlib

/-!
Verification of the blocklist repository of the pihole-api project
(`src/services/lists/repository.rs`).

The repository is a CRUD layer over three SQLite tables (`whitelist`,
`blacklist`, `regex`), each row holding a `domain` string and an `enabled`
flag.  We embed the storage state as three Lean lists of rows in storage
order.  Each diesel query of the source is embedded as a pure function on
the addressed table; the possibility of a storage-layer failure (lost
connection, rejected statement) is modelled by an explicit `fault`
parameter injected into each repository call: when the fault fires, the
diesel statement returns that error, otherwise it returns the pure query
result.  Mutating methods are embedded in state-passing style, returning
the updated database on success.
-/

/-- The `List` enum of `src/services/lists` (named `ListKind` here because
`List` is taken in Lean): selects which of the three tables an operation
targets. -/
inductive ListKind
  | white
  | black
  | regex
deriving DecidableEq, Repr

/-- One row of a gravity list table: a `domain` text column and an
`enabled` boolean column. -/
structure Row where
  domain : String
  enabled : Bool
deriving DecidableEq, Repr

/-- The gravity database state: the three independent list tables, each a
list of rows in storage order. -/
structure GravityDatabase where
  whitelist : List Row
  blacklist : List Row
  regex : List Row
deriving DecidableEq, Repr

/-- The table addressed by a given list kind. -/
def GravityDatabase.table (db : GravityDatabase) : ListKind → List Row
  | .white => db.whitelist
  | .black => db.blacklist
  | .regex => db.regex

/-- Replace the table addressed by a given list kind. -/
def GravityDatabase.setTable (db : GravityDatabase) : ListKind → List Row → GravityDatabase
  | .white, t => { db with whitelist := t }
  | .black, t => { db with blacklist := t }
  | .regex, t => { db with regex := t }

/-- A low-level diesel/SQLite storage error (connectivity loss, rejected
query, constraint violation); the repository never inspects its detail. -/
structure DieselError where
  detail : String
deriving DecidableEq, Repr

/-- Modelled from the spec: the error kinds of `util::ErrorKind` (its
definition is not among the given sources).  The repository wraps every
storage failure in the single kind identifying list storage failure,
`GravityDatabase`; `Unknown` stands for the unrelated kinds. -/
inductive ErrorKind
  | GravityDatabase
  | Unknown
deriving DecidableEq, Repr

/-- Modelled from the spec: the domain error type `util::Error` (its
definition is not among the given sources).  It carries the domain error
kind and preserves the low-level cause for logging only. -/
structure Error where
  kind : ErrorKind
  cause : Option DieselError
deriving DecidableEq, Repr

/-- Execution of a diesel statement against the connection: either the
injected storage fault fires and the statement fails with it, or the pure
result of the query is produced. -/
def runStorage {α : Type} (fault : Option DieselError) (a : α) : Except DieselError α :=
  match fault with
  | some e => Except.error e
  | none => Except.ok a

/-- The `.context(ErrorKind::GravityDatabase)` / `.map_err(Error::from)`
step of every repository method: any storage error is wrapped into the
`GravityDatabase` domain error kind, keeping the cause only as logging
detail. -/
def contextGravityDatabase {α : Type} : Except DieselError α → Except Error α
  | .ok a => .ok a
  | .error e => .error ⟨ErrorKind.GravityDatabase, some e⟩

/-- The query `table.select(domain).filter(enabled.eq(true)).load(db)`:
the domains of the enabled rows, in storage order. -/
def queryGet (t : List Row) : List String :=
  (t.filter fun r => r.enabled).map fun r => r.domain

/-- The query
`select(exists(table.filter(enabled.eq(true)).filter(domain.eq(input_domain))))`:
whether some enabled row holds exactly this domain. -/
def queryContains (t : List Row) (input_domain : String) : Bool :=
  t.any fun r => r.enabled && r.domain == input_domain

/-- The statement
`insert_into(table).values(&(domain.eq(input_domain), enabled.eq(true))).execute(db)`:
appends a new enabled row at the end of the table (SQLite assigns the next
rowid, so the row lands last in storage order). -/
def queryInsert (t : List Row) (input_domain : String) : List Row :=
  t ++ [⟨input_domain, true⟩]

/-- The statement
`delete(table.filter(enabled.eq(true)).filter(domain.eq(input_domain))).execute(db)`:
physically deletes every enabled row holding exactly this domain. -/
def queryDelete (t : List Row) (input_domain : String) : List Row :=
  t.filter fun r => !(r.enabled && r.domain == input_domain)

/-- `ListRepositoryImpl::get`: dispatch on the list kind, load the enabled
domains of the addressed table, wrap any storage error. -/
def ListRepositoryImpl.get (db : GravityDatabase) (fault : Option DieselError)
    (list : ListKind) : Except Error (List String) :=
  contextGravityDatabase (runStorage fault
    (match list with
     | .white => queryGet db.whitelist
     | .black => queryGet db.blacklist
     | .regex => queryGet db.regex))

/-- `ListRepositoryImpl::contains`: dispatch on the list kind, run the
exists-check on the addressed table, wrap any storage error. -/
def ListRepositoryImpl.contains (db : GravityDatabase) (fault : Option DieselError)
    (list : ListKind) (input_domain : String) : Except Error Bool :=
  contextGravityDatabase (runStorage fault
    (match list with
     | .white => queryContains db.whitelist input_domain
     | .black => queryContains db.blacklist input_domain
     | .regex => queryContains db.regex input_domain))

/-- `ListRepositoryImpl::add`: dispatch on the list kind, insert the
domain as an enabled row into the addressed table, wrap any storage error;
on success the updated database is returned (state-passing embedding of
the in-place mutation). -/
def ListRepositoryImpl.add (db : GravityDatabase) (fault : Option DieselError)
    (list : ListKind) (input_domain : String) : Except Error GravityDatabase :=
  contextGravityDatabase (runStorage fault
    (match list with
     | .white => { db with whitelist := queryInsert db.whitelist input_domain }
     | .black => { db with blacklist := queryInsert db.blacklist input_domain }
     | .regex => { db with regex := queryInsert db.regex input_domain }))

/-- `ListRepositoryImpl::remove`: dispatch on the list kind, delete the
enabled rows holding the domain from the addressed table, wrap any storage
error; on success the updated database is returned. -/
def ListRepositoryImpl.remove (db : GravityDatabase) (fault : Option DieselError)
    (list : ListKind) (input_domain : String) : Except Error GravityDatabase :=
  contextGravityDatabase (runStorage fault
    (match list with
     | .white => { db with whitelist := queryDelete db.whitelist input_domain }
     | .black => { db with blacklist := queryDelete db.blacklist input_domain }
     | .regex => { db with regex := queryDelete db.regex input_domain }))

/-- The database state after a fault-free `add` (always succeeds). -/
def applyAdd (db : GravityDatabase) (list : ListKind) (input_domain : String) :
    GravityDatabase :=
  match ListRepositoryImpl.add db none list input_domain with
  | .ok db' => db'
  | .error _ => db

/-- The database state after a fault-free `remove` (always succeeds). -/
def applyRemove (db : GravityDatabase) (list : ListKind) (input_domain : String) :
    GravityDatabase :=
  match ListRepositoryImpl.remove db none list input_domain with
  | .ok db' => db'
  | .error _ => db

/-- The sequence returned by a fault-free `get` (always succeeds). -/
def applyGet (db : GravityDatabase) (list : ListKind) : List String :=
  match ListRepositoryImpl.get db none list with
  | .ok xs => xs
  | .error _ => []

/-- One mutating repository call of a trace: an `add` or a `remove`, with
the storage fault (if any) injected into that call. -/
inductive RepoOp
  | addOp (fault : Option DieselError) (list : ListKind) (domain : String)
  | removeOp (fault : Option DieselError) (list : ListKind) (domain : String)
deriving DecidableEq, Repr

/-- Apply one mutating call to the database: a failed call leaves the
state unchanged, a successful one yields the updated state. -/
def applyOp (db : GravityDatabase) : RepoOp → GravityDatabase
  | .addOp f l d =>
    match ListRepositoryImpl.add db f l d with
    | .ok db' => db'
    | .error _ => db
  | .removeOp f l d =>
    match ListRepositoryImpl.remove db f l d with
    | .ok db' => db'
    | .error _ => db

/-- Apply a trace of mutating calls in order. -/
def applyOps (db : GravityDatabase) (ops : List RepoOp) : GravityDatabase :=
  ops.foldl applyOp db

/-- Whether an operation is a successful `remove` of this very domain from
this very list (a fault-free `remove` always succeeds). -/
def RepoOp.isSuccessfulRemove (op : RepoOp) (l : ListKind) (d : String) : Bool :=
  match op with
  | .removeOp none l' d' => l' == l && d' == d
  | _ => false

/-- The database restricted to its enabled rows. -/
def GravityDatabase.enabledOnly (db : GravityDatabase) : GravityDatabase :=
  ⟨db.whitelist.filter (fun r => r.enabled),
   db.blacklist.filter (fun r => r.enabled),
   db.regex.filter (fun r => r.enabled)⟩

/-- The disabled rows of every table (the part of the state the contract
declares invisible). -/
def disabledRows (db : GravityDatabase) : GravityDatabase :=
  ⟨db.whitelist.filter (fun r => !r.enabled),
   db.blacklist.filter (fun r => !r.enabled),
   db.regex.filter (fun r => !r.enabled)⟩

/-! Helper lemmas: the three-arm dispatch of every method is the same
query applied to the addressed table. -/

/-- The dispatch of `get` addresses exactly the table of the list kind. -/
theorem get_dispatch (db : GravityDatabase) (f : Option DieselError) (l : ListKind) :
    ListRepositoryImpl.get db f l = contextGravityDatabase (runStorage f (queryGet (db.table l))) := by
  cases l <;> rfl

/-- The dispatch of `contains` addresses exactly the table of the list kind. -/
theorem contains_dispatch (db : GravityDatabase) (f : Option DieselError) (l : ListKind)
    (d : String) :
    ListRepositoryImpl.contains db f l d
      = contextGravityDatabase (runStorage f (queryContains (db.table l) d)) := by
  cases l <;> rfl

/-- The dispatch of `add` inserts into exactly the table of the list kind. -/
theorem add_dispatch (db : GravityDatabase) (f : Option DieselError) (l : ListKind)
    (d : String) :
    ListRepositoryImpl.add db f l d
      = contextGravityDatabase (runStorage f (db.setTable l (queryInsert (db.table l) d))) := by
  cases l <;> rfl

/-- The dispatch of `remove` deletes from exactly the table of the list kind. -/
theorem remove_dispatch (db : GravityDatabase) (f : Option DieselError) (l : ListKind)
    (d : String) :
    ListRepositoryImpl.remove db f l d
      = contextGravityDatabase (runStorage f (db.setTable l (queryDelete (db.table l) d))) := by
  cases l <;> rfl

/-- Reading back the table just replaced. -/
theorem table_setTable_self (db : GravityDatabase) (l : ListKind) (t : List Row) :
    (db.setTable l t).table l = t := by
  cases l <;> rfl

/-- Replacing one table leaves every other table unchanged. -/
theorem table_setTable_ne (db : GravityDatabase) {l k : ListKind} (h : l ≠ k) (t : List Row) :
    (db.setTable l t).table k = db.table k := by
  cases l <;> cases k <;> first | rfl | exact absurd rfl h

/-- A fault-free `get` succeeds with the enabled domains of the table. -/
theorem get_ok (db : GravityDatabase) (l : ListKind) :
    ListRepositoryImpl.get db none l = .ok (queryGet (db.table l)) := by
  cases l <;> rfl

/-- A fault-free `contains` succeeds with the exists-check on the table. -/
theorem contains_ok (db : GravityDatabase) (l : ListKind) (d : String) :
    ListRepositoryImpl.contains db none l d = .ok (queryContains (db.table l) d) := by
  cases l <;> rfl

/-- A fault-free `add` succeeds and its result state is `applyAdd`. -/
theorem add_ok (db : GravityDatabase) (l : ListKind) (d : String) :
    ListRepositoryImpl.add db none l d = .ok (applyAdd db l d) := by
  cases l <;> rfl

/-- A fault-free `remove` succeeds and its result state is `applyRemove`. -/
theorem remove_ok (db : GravityDatabase) (l : ListKind) (d : String) :
    ListRepositoryImpl.remove db none l d = .ok (applyRemove db l d) := by
  cases l <;> rfl

/-- The state after a fault-free `add`: the new enabled row is appended to
the addressed table. -/
theorem applyAdd_eq (db : GravityDatabase) (l : ListKind) (d : String) :
    applyAdd db l d = db.setTable l (queryInsert (db.table l) d) := by
  cases l <;> rfl

/-- The state after a fault-free `remove`: the enabled matching rows are
deleted from the addressed table. -/
theorem applyRemove_eq (db : GravityDatabase) (l : ListKind) (d : String) :
    applyRemove db l d = db.setTable l (queryDelete (db.table l) d) := by
  cases l <;> rfl

/-- The sequence of a fault-free `get` is the query result on the table. -/
theorem applyGet_eq (db : GravityDatabase) (l : ListKind) :
    applyGet db l = queryGet (db.table l) := by
  cases l <;> rfl

/-! Helper lemmas about the four pure queries. -/

/-- Inserting a row and then checking: the check sees the old rows or the
fresh row. -/
theorem queryContains_insert (t : List Row) (v w : String) :
    queryContains (queryInsert t v) w = (queryContains t w || v == w) := by
  simp [queryContains, queryInsert, List.any_append]

/-- The freshly inserted domain is always found. -/
theorem queryContains_insert_self (t : List Row) (v : String) :
    queryContains (queryInsert t v) v = true := by
  simp [queryContains_insert]

/-- Deleting one domain does not change the check for a different domain. -/
theorem queryContains_delete_ne (t : List Row) {v w : String} (h : w ≠ v) :
    queryContains (queryDelete t v) w = queryContains t w := by
  induction t with
  | nil => rfl
  | cons r t ih =>
    simp only [queryDelete, queryContains] at ih ⊢
    cases hp : (r.enabled && r.domain == v)
    · rw [List.filter_cons_of_pos (by simp [hp]), List.any_cons, List.any_cons, ih]
    · have hp' : r.enabled = true ∧ r.domain = v := by simpa using hp
      have hvw : (r.domain == w) = false := by
        rw [hp'.2]
        exact beq_eq_false_iff_ne.mpr fun hvw => h hvw.symm
      have hrw : (r.enabled && r.domain == w) = false := by
        rw [hvw, Bool.and_false]
      rw [List.filter_cons_of_neg (by simp [hp]), ih, List.any_cons, hrw, Bool.false_or]

/-- After deleting a domain, the check for that very domain fails. -/
theorem queryContains_delete_self (t : List Row) (v : String) :
    queryContains (queryDelete t v) v = false := by
  induction t with
  | nil => rfl
  | cons r t ih =>
    simp only [queryDelete, queryContains] at ih ⊢
    cases hp : (r.enabled && r.domain == v)
    · rw [List.filter_cons_of_pos (by simp [hp]), List.any_cons, hp, Bool.false_or]
      exact ih
    · rw [List.filter_cons_of_neg (by simp [hp])]
      exact ih

/-- Membership in the loaded sequence coincides with the exists-check. -/
theorem mem_queryGet (t : List Row) (w : String) :
    w ∈ queryGet t ↔ queryContains t w = true := by
  simp only [queryGet, queryContains, List.mem_map, List.mem_filter, List.any_eq_true,
    Bool.and_eq_true, beq_iff_eq]
  constructor
  · rintro ⟨r, ⟨hr, he⟩, hd⟩
    exact ⟨r, hr, he, hd⟩
  · rintro ⟨r, hr, he, hd⟩
    exact ⟨r, ⟨hr, he⟩, hd⟩

/-- Loading after an insert: the fresh domain is appended at the end. -/
theorem queryGet_insert (t : List Row) (v : String) :
    queryGet (queryInsert t v) = queryGet t ++ [v] := by
  simp [queryGet, queryInsert, List.filter_append, List.map_append]

/-- Restricting a table to its enabled rows does not change the loaded
sequence (the load already filters on `enabled`). -/
theorem queryGet_enabledOnly (t : List Row) :
    queryGet (t.filter fun r => r.enabled) = queryGet t := by
  simp [queryGet, List.filter_filter]

/-- Restricting a table to its enabled rows does not change the
exists-check (the check already filters on `enabled`). -/
theorem queryContains_enabledOnly (t : List Row) (w : String) :
    queryContains (t.filter fun r => r.enabled) w = queryContains t w := by
  induction t with
  | nil => rfl
  | cons r t ih =>
    simp only [queryContains] at ih ⊢
    cases he : r.enabled
    · rw [List.filter_cons_of_neg (by simp [he]), ih, List.any_cons, he, Bool.false_and,
        Bool.false_or]
    · rw [List.filter_cons_of_pos (by simp [he]), List.any_cons, List.any_cons, ih]

/-- The tables of the enabled-rows restriction. -/
theorem table_enabledOnly (db : GravityDatabase) (l : ListKind) :
    db.enabledOnly.table l = (db.table l).filter fun r => r.enabled := by
  cases l <;> rfl

/-- Replacing the same table twice keeps only the second replacement. -/
theorem setTable_setTable (db : GravityDatabase) (l : ListKind) (t t' : List Row) :
    (db.setTable l t).setTable l t' = db.setTable l t' := by
  cases l <;> rfl

/-- Deleting a domain twice is the same as deleting it once. -/
theorem queryDelete_idem (t : List Row) (v : String) :
    queryDelete (queryDelete t v) v = queryDelete t v := by
  simp [queryDelete, List.filter_filter]

/-- The delete statement never touches a disabled row. -/
theorem filter_disabled_queryDelete (t : List Row) (v : String) :
    (queryDelete t v).filter (fun r => !r.enabled) = t.filter fun r => !r.enabled := by
  rw [queryDelete, List.filter_filter]
  apply List.filter_congr
  intro r _
  cases he : r.enabled <;> simp [he]

/-- Loading keeps at least one copy of any domain the exists-check finds. -/
theorem count_queryGet_pos (t : List Row) (v : String) (h : queryContains t v = true) :
    1 ≤ (queryGet t).count v :=
  List.count_pos_iff.mpr ((mem_queryGet t v).mpr h)

/-- A single mutating call that is not a successful `remove` of this very
domain from this very list keeps the domain visible. -/
theorem queryContains_applyOp (db : GravityDatabase) (l : ListKind) (d : String)
    (op : RepoOp) (h : queryContains (db.table l) d = true)
    (hop : op.isSuccessfulRemove l d = false) :
    queryContains ((applyOp db op).table l) d = true := by
  cases op with
  | addOp f l' d' =>
    cases f with
    | some e => exact h
    | none =>
      have heq : applyOp db (.addOp none l' d') = applyAdd db l' d' := rfl
      rw [heq, applyAdd_eq]
      by_cases hl : l' = l
      · subst hl
        rw [table_setTable_self, queryContains_insert, h, Bool.true_or]
      · rw [table_setTable_ne db hl]
        exact h
  | removeOp f l' d' =>
    cases f with
    | some e => exact h
    | none =>
      have heq : applyOp db (.removeOp none l' d') = applyRemove db l' d' := rfl
      rw [heq, applyRemove_eq]
      by_cases hl : l' = l
      · subst hl
        simp only [RepoOp.isSuccessfulRemove, beq_self_eq_true, Bool.true_and,
          beq_eq_false_iff_ne] at hop
        rw [table_setTable_self, queryContains_delete_ne _ (fun hdd => hop hdd.symm)]
        exact h
      · rw [table_setTable_ne db hl]
        exact h

/-- A trace of mutating calls, none of which is a successful `remove` of
this very domain from this very list, keeps the domain visible. -/
theorem queryContains_applyOps (ops : List RepoOp) (db : GravityDatabase) (l : ListKind)
    (d : String) (h : queryContains (db.table l) d = true)
    (hops : ∀ op ∈ ops, op.isSuccessfulRemove l d = false) :
    queryContains ((applyOps db ops).table l) d = true := by
  induction ops generalizing db with
  | nil => exact h
  | cons op ops ih =>
    have h1 := queryContains_applyOp db l d op h (hops op (List.mem_cons_self op ops))
    exact ih (applyOp db op) h1 fun o ho => hops o (List.mem_cons_of_mem op ho)

/-- C1: for every list kind and domain, once `add` succeeds, `contains`
returns `Ok true`, and it stays `Ok true` across any trace of later
repository mutations that does not include a successful `remove` of that
domain from that list. -/
theorem add_contains_until_remove (db db' : GravityDatabase) (f : Option DieselError)
    (l : ListKind) (d : String) (ops : List RepoOp)
    (hadd : ListRepositoryImpl.add db f l d = .ok db')
    (hops : ∀ op ∈ ops, op.isSuccessfulRemove l d = false) :
    ListRepositoryImpl.contains (applyOps db' ops) none l d = .ok true := by
  cases f with
  | some e =>
    rw [add_dispatch] at hadd
    simp [contextGravityDatabase, runStorage] at hadd
  | none =>
    rw [add_ok] at hadd
    have hdb : applyAdd db l d = db' := by injection hadd
    subst hdb
    have h0 : queryContains ((applyAdd db l d).table l) d = true := by
      rw [applyAdd_eq, table_setTable_self, queryContains_insert_self]
    rw [contains_ok, queryContains_applyOps ops _ l d h0 hops]

/-- Witness for C1 at a concrete input: after adding `test.com` to the
whitelist, an unrelated add and an unrelated remove keep it contained. -/
theorem add_contains_until_remove_witness :
    ListRepositoryImpl.contains
        (applyOps ⟨[⟨"test.com", true⟩], [], []⟩
          [RepoOp.addOp none ListKind.black "other.com",
           RepoOp.removeOp none ListKind.white "another.com"])
        none ListKind.white "test.com" = .ok true :=
  add_contains_until_remove ⟨[], [], []⟩ ⟨[⟨"test.com", true⟩], [], []⟩ none ListKind.white
    "test.com"
    [RepoOp.addOp none ListKind.black "other.com",
     RepoOp.removeOp none ListKind.white "another.com"]
    (by rfl) (by decide)

/-- C2: a fault-free `get` succeeds and is determined by the storage
state, and membership in its sequence coincides exactly with `contains`
returning `Ok true`. -/
theorem get_matches_contains (db : GravityDatabase) (l : ListKind) (v : String) :
    ListRepositoryImpl.get db none l = .ok (applyGet db l) ∧
    (v ∈ applyGet db l ↔ ListRepositoryImpl.contains db none l v = .ok true) := by
  refine ⟨by rw [get_ok, applyGet_eq], ?_⟩
  rw [applyGet_eq, contains_ok, mem_queryGet]
  constructor
  · intro h
    rw [h]
  · intro h
    injection h

/-- C3: `remove` is idempotent and total on absence: both the first and
the second fault-free `remove` succeed, `contains` is false after either,
and the second `remove` does not change the state further. -/
theorem remove_idempotent (db : GravityDatabase) (l : ListKind) (v : String) :
    ListRepositoryImpl.remove db none l v = .ok (applyRemove db l v) ∧
    ListRepositoryImpl.remove (applyRemove db l v) none l v
      = .ok (applyRemove (applyRemove db l v) l v) ∧
    ListRepositoryImpl.contains (applyRemove db l v) none l v = .ok false ∧
    ListRepositoryImpl.contains (applyRemove (applyRemove db l v) l v) none l v = .ok false ∧
    applyRemove (applyRemove db l v) l v = applyRemove db l v := by
  have hstate : applyRemove (applyRemove db l v) l v = applyRemove db l v := by
    rw [applyRemove_eq db, applyRemove_eq (db.setTable l (queryDelete (db.table l) v)),
      table_setTable_self, setTable_setTable, queryDelete_idem]
  have hc : ListRepositoryImpl.contains (applyRemove db l v) none l v = .ok false := by
    rw [contains_ok, applyRemove_eq, table_setTable_self, queryContains_delete_self]
  refine ⟨remove_ok db l v, remove_ok _ l v, hc, ?_, hstate⟩
  rw [hstate]
  exact hc

/-- C4: every operation honors the enabled-flag invariant: `get` and
`contains` see only the enabled rows (restricting the state to its
enabled rows changes nothing), `add` inserts its row with
`enabled = true`, and the disabled rows are invisible to (left intact by)
both mutations. -/
theorem enabled_flag_invariant (db : GravityDatabase) (l : ListKind) (v : String) :
    ListRepositoryImpl.get db none l = ListRepositoryImpl.get db.enabledOnly none l ∧
    ListRepositoryImpl.contains db none l v
      = ListRepositoryImpl.contains db.enabledOnly none l v ∧
    ListRepositoryImpl.add db none l v = .ok (db.setTable l (db.table l ++ [⟨v, true⟩])) ∧
    disabledRows (applyAdd db l v) = disabledRows db ∧
    disabledRows (applyRemove db l v) = disabledRows db := by
  refine ⟨?_, ?_, ?_, ?_, ?_⟩
  · rw [get_ok, get_ok, table_enabledOnly, queryGet_enabledOnly]
  · rw [contains_ok, contains_ok, table_enabledOnly, queryContains_enabledOnly]
  · rw [add_ok, applyAdd_eq]
    rfl
  · rw [applyAdd_eq]
    cases l <;>
      simp [disabledRows, GravityDatabase.setTable, GravityDatabase.table, queryInsert,
        List.filter_append]
  · rw [applyRemove_eq]
    cases l <;>
      simp [disabledRows, GravityDatabase.setTable, GravityDatabase.table,
        filter_disabled_queryDelete]

/-- C5: operations addressed to one list never read or modify another
list's table: after an `add` or `remove` on one list, every other list's
table, `contains` answer and `get` sequence are unchanged. -/
theorem table_isolation (db : GravityDatabase) (l1 l2 : ListKind) (d v : String)
    (h : l1 ≠ l2) :
    (applyAdd db l1 d).table l2 = db.table l2 ∧
    (applyRemove db l1 d).table l2 = db.table l2 ∧
    ListRepositoryImpl.contains (applyAdd db l1 d) none l2 v
      = ListRepositoryImpl.contains db none l2 v ∧
    ListRepositoryImpl.get (applyAdd db l1 d) none l2 = ListRepositoryImpl.get db none l2 ∧
    ListRepositoryImpl.contains (applyRemove db l1 d) none l2 v
      = ListRepositoryImpl.contains db none l2 v ∧
    ListRepositoryImpl.get (applyRemove db l1 d) none l2 = ListRepositoryImpl.get db none l2 := by
  have ha : (applyAdd db l1 d).table l2 = db.table l2 := by
    rw [applyAdd_eq]
    exact table_setTable_ne db h _
  have hr : (applyRemove db l1 d).table l2 = db.table l2 := by
    rw [applyRemove_eq]
    exact table_setTable_ne db h _
  refine ⟨ha, hr, ?_, ?_, ?_, ?_⟩
  · rw [contains_ok, contains_ok, ha]
  · rw [get_ok, get_ok, ha]
  · rw [contains_ok, contains_ok, hr]
  · rw [get_ok, get_ok, hr]

/-- Witness for C5 at a concrete input: adding `x.com` to the whitelist
leaves the blacklist's answer for `x.com` what it was. -/
theorem table_isolation_witness :
    ListRepositoryImpl.contains
        (applyAdd ⟨[], [⟨"x.com", true⟩], []⟩ ListKind.white "x.com") none ListKind.black
        "x.com"
      = ListRepositoryImpl.contains (⟨[], [⟨"x.com", true⟩], []⟩ : GravityDatabase) none
        ListKind.black "x.com" :=
  (table_isolation ⟨[], [⟨"x.com", true⟩], []⟩ ListKind.white ListKind.black "x.com" "x.com"
    (by decide)).2.2.1

/-- C6: adding an already-present value is idempotent by outcome:
`contains` of that value stays `Ok true`, every `contains` answer is
unchanged, and the membership of every `get` sequence is unchanged. -/
theorem add_present_preserves (db : GravityDatabase) (l l' : ListKind) (v w : String)
    (h : ListRepositoryImpl.contains db none l v = .ok true) :
    ListRepositoryImpl.contains (applyAdd db l v) none l v = .ok true ∧
    ListRepositoryImpl.contains (applyAdd db l v) none l' w
      = ListRepositoryImpl.contains db none l' w ∧
    (w ∈ applyGet (applyAdd db l v) l' ↔ w ∈ applyGet db l') := by
  rw [contains_ok] at h
  have hq : queryContains (db.table l) v = true := by injection h
  have hcw : ∀ (k : ListKind) (u : String),
      queryContains ((applyAdd db l v).table k) u = queryContains (db.table k) u := by
    intro k u
    rw [applyAdd_eq]
    by_cases hl : l = k
    · subst hl
      rw [table_setTable_self, queryContains_insert]
      by_cases hvu : v = u
      · subst hvu
        rw [hq]
        simp
      · rw [beq_eq_false_iff_ne.mpr hvu, Bool.or_false]
    · rw [table_setTable_ne db hl]
  refine ⟨?_, ?_, ?_⟩
  · rw [contains_ok, hcw l v, hq]
  · rw [contains_ok, contains_ok, hcw l' w]
  · rw [applyGet_eq, applyGet_eq, mem_queryGet, mem_queryGet, hcw l' w]

/-- Witness for C6 at a concrete input: re-adding `a.com` to a whitelist
that already holds it keeps it contained. -/
theorem add_present_preserves_witness :
    ListRepositoryImpl.contains
        (applyAdd ⟨[⟨"a.com", true⟩], [], []⟩ ListKind.white "a.com") none ListKind.white
        "a.com" = .ok true :=
  (add_present_preserves ⟨[⟨"a.com", true⟩], [], []⟩ ListKind.white ListKind.white "a.com"
    "a.com" (by rfl)).1

/-- C7: when the storage layer fails, each of the four operations returns
an error whose kind is exactly `GravityDatabase` (the storage detail is
kept only as the wrapped cause), never a success; the embedding is total,
so no call aborts. -/
theorem storage_error_mapping (db : GravityDatabase) (l : ListKind) (v : String)
    (e : DieselError) :
    ListRepositoryImpl.get db (some e) l = .error ⟨ErrorKind.GravityDatabase, some e⟩ ∧
    ListRepositoryImpl.contains db (some e) l v
      = .error ⟨ErrorKind.GravityDatabase, some e⟩ ∧
    ListRepositoryImpl.add db (some e) l v = .error ⟨ErrorKind.GravityDatabase, some e⟩ ∧
    ListRepositoryImpl.remove db (some e) l v = .error ⟨ErrorKind.GravityDatabase, some e⟩ :=
  ⟨rfl, rfl, rfl, rfl⟩

/-- C8: `add` checks nothing before inserting, so adding a value that is
already contained raises its multiplicity in the `get` sequence by one:
the duplicate row is observable through `get`. -/
theorem duplicate_add_observable (db : GravityDatabase) (l : ListKind) (v : String)
    (h : ListRepositoryImpl.contains db none l v = .ok true) :
    ListRepositoryImpl.get (applyAdd db l v) none l = .ok (applyGet (applyAdd db l v) l) ∧
    (applyGet (applyAdd db l v) l).count v = (applyGet db l).count v + 1 ∧
    2 ≤ (applyGet (applyAdd db l v) l).count v := by
  rw [contains_ok] at h
  have hq : queryContains (db.table l) v = true := by injection h
  have hcount : (applyGet (applyAdd db l v) l).count v = (applyGet db l).count v + 1 := by
    rw [applyGet_eq, applyGet_eq, applyAdd_eq, table_setTable_self, queryGet_insert,
      List.count_append]
    simp
  have h1 : 1 ≤ (applyGet db l).count v := by
    rw [applyGet_eq]
    exact count_queryGet_pos _ _ hq
  refine ⟨by rw [get_ok, applyGet_eq], hcount, by omega⟩

/-- Witness for C8 at a concrete input: re-adding `d.com` to a whitelist
already holding it makes `get` return it twice. -/
theorem duplicate_add_observable_witness :
    2 ≤ (applyGet (applyAdd ⟨[⟨"d.com", true⟩], [], []⟩ ListKind.white "d.com")
        ListKind.white).count "d.com" :=
  (duplicate_add_observable ⟨[⟨"d.com", true⟩], [], []⟩ ListKind.white "d.com" (by rfl)).2.2

/-- C9: one successful `remove` deletes every enabled row holding the
domain: even after two duplicate adds of the same value, a single `remove`
succeeds and leaves `contains` at `Ok false`. -/
theorem remove_clears_duplicates (db : GravityDatabase) (l : ListKind) (v : String) :
    ListRepositoryImpl.contains (applyAdd (applyAdd db l v) l v) none l v = .ok true ∧
    ListRepositoryImpl.remove (applyAdd (applyAdd db l v) l v) none l v
      = .ok (applyRemove (applyAdd (applyAdd db l v) l v) l v) ∧
    ListRepositoryImpl.contains (applyRemove (applyAdd (applyAdd db l v) l v) l v) none l v
      = .ok false := by
  refine ⟨?_, remove_ok _ l v, ?_⟩
  · rw [contains_ok, applyAdd_eq (applyAdd db l v), table_setTable_self,
      queryContains_insert_self]
  · rw [contains_ok, applyRemove_eq, table_setTable_self, queryContains_delete_self]

/-- C10: `remove` is physical deletion restricted to enabled rows: its
result table is the original filtered by "not (enabled and matching)",
so surviving rows are the original rows unchanged (no `enabled` flip), and
neither `remove` nor `add` ever touches a disabled row of any table. -/
theorem remove_physical_delete (db : GravityDatabase) (l k : ListKind) (v : String) :
    ListRepositoryImpl.remove db none l v
      = .ok (db.setTable l ((db.table l).filter fun r => !(r.enabled && r.domain == v))) ∧
    ((applyRemove db l v).table k).filter (fun r => !r.enabled)
      = (db.table k).filter (fun r => !r.enabled) ∧
    ((applyAdd db l v).table k).filter (fun r => !r.enabled)
      = (db.table k).filter (fun r => !r.enabled) := by
  refine ⟨by rw [remove_ok, applyRemove_eq]; rfl, ?_, ?_⟩
  · rw [applyRemove_eq]
    by_cases hl : l = k
    · subst hl
      rw [table_setTable_self]
      exact filter_disabled_queryDelete _ _
    · rw [table_setTable_ne db hl]
  · rw [applyAdd_eq]
    by_cases hl : l = k
    · subst hl
      rw [table_setTable_self]
      simp [queryInsert, List.filter_append]
    · rw [table_setTable_ne db hl]
